import Mathlib

/-!
Verification of minivm: the execution core of `minis/minivm/vm.h`

A shallow embedding of the register machine of `vm.h` and of the driver in
`main.cpp`.

* 64-bit registers and table entries are natural numbers; the one operation of
  the source that can wrap (`++context.regs.pc`) is taken modulo `2 ^ 64`.
* The 4-bit bit-fields of `VMInstruction` are `Fin 16`, the 16-bit field is
  `Fin 65536`.
* The `while` loop of `VMEngine::execute` is given as its body (`loopBody`),
  as a bounded iteration of the guarded body (`loop`), and as a fuelled run
  (`execute`) that answers `none` when the fuel does not suffice.
-/

namespace mini

/-- Number of values of a 64-bit unsigned integer. -/
def U64 : Nat := 2 ^ 64

/-- Register indices, `enum struct VMRegIdx : std::uint8_t` (4 bits only). -/
abbrev VMRegIdx := Fin 16

def VMRegIdx.Nul : VMRegIdx := 0
def VMRegIdx.R1 : VMRegIdx := 1
def VMRegIdx.R2 : VMRegIdx := 2
def VMRegIdx.R3 : VMRegIdx := 3
def VMRegIdx.R4 : VMRegIdx := 4
def VMRegIdx.R5 : VMRegIdx := 5
def VMRegIdx.R6 : VMRegIdx := 6
def VMRegIdx.R7 : VMRegIdx := 7
def VMRegIdx.RBase : VMRegIdx := 8
def VMRegIdx.RStack : VMRegIdx := 9
def VMRegIdx.RZero : VMRegIdx := 10
def VMRegIdx.ROnes : VMRegIdx := 11
def VMRegIdx.Reserved12 : VMRegIdx := 12
def VMRegIdx.Reserved13 : VMRegIdx := 13
def VMRegIdx.RFlags : VMRegIdx := 14
def VMRegIdx.PC : VMRegIdx := 15

/-- Opcodes, `enum struct VMOpCode : std::uint8_t`, stored in a 4-bit field.
The value `0b1000` has no enumerator. -/
abbrev VMOpCode := Fin 16

def VMOpCode.Interrupt : VMOpCode := 0
def VMOpCode.Add : VMOpCode := 1
def VMOpCode.Sub : VMOpCode := 2
def VMOpCode.Mul : VMOpCode := 3
def VMOpCode.Div : VMOpCode := 4
def VMOpCode.And : VMOpCode := 5
def VMOpCode.Or : VMOpCode := 6
def VMOpCode.Xor : VMOpCode := 7
def VMOpCode.Load : VMOpCode := 9
def VMOpCode.Store : VMOpCode := 10
def VMOpCode.Compare : VMOpCode := 11
def VMOpCode.Branch : VMOpCode := 12
def VMOpCode.Move : VMOpCode := 13
def VMOpCode.Assign : VMOpCode := 14
def VMOpCode.Extended : VMOpCode := 15

/-- Instruction word, `struct alignas(std::uint32_t) VMInstruction`. -/
structure VMInstruction where
  opcode : VMOpCode
  d : Fin 16
  x : Fin 16
  y : Fin 16
  v : Fin 65536
  deriving DecidableEq

/-- Bit positions in the flags register, `struct VMRFlagOffset`. -/
def VMRFlagOffset.overflow : Nat := 0

/-- Register file, the named view of the union of `struct VMRegisterSet`. -/
structure VMRegisterSet where
  nul : Nat
  r1 : Nat
  r2 : Nat
  r3 : Nat
  r4 : Nat
  r5 : Nat
  r6 : Nat
  r7 : Nat
  rbase : Nat
  rstack : Nat
  rzero : Nat
  rones : Nat
  reserved12 : Nat
  reserved13 : Nat
  rflags : Nat
  pc : Nat
  deriving DecidableEq

/-- Array view of the register file, the member `arr[16]` of the union: slot
`i` of the array is the `i`-th named field. -/
def VMRegisterSet.arr (regs : VMRegisterSet) (i : Fin 16) : Nat :=
  match i.val with
  | 0 => regs.nul
  | 1 => regs.r1
  | 2 => regs.r2
  | 3 => regs.r3
  | 4 => regs.r4
  | 5 => regs.r5
  | 6 => regs.r6
  | 7 => regs.r7
  | 8 => regs.rbase
  | 9 => regs.rstack
  | 10 => regs.rzero
  | 11 => regs.rones
  | 12 => regs.reserved12
  | 13 => regs.reserved13
  | 14 => regs.rflags
  | _ => regs.pc

/-- Interrupt vector table, `struct VMInterruptRoutineTable`. -/
structure VMInterruptRoutineTable where
  routines : Fin 16 → Nat

/-- Memory segment, `struct VMMemorySegment`: `ptr` gives the byte stored at
each offset of the buffer and `size` is the length of the buffer. -/
structure VMMemorySegment where
  ptr : Nat → Nat
  size : Nat

/-- Constructor `VMMemorySegment(size)`: `std::make_unique<std::uint8_t[]>`
value-initialises the buffer, so every byte is zero. -/
def VMMemorySegment.mk_sized (size : Nat) : VMMemorySegment :=
  { ptr := fun _ => 0, size := size }

/-- Machine state, `struct VMContext`. -/
structure VMContext where
  regs : VMRegisterSet
  irt : VMInterruptRoutineTable
  stack : VMMemorySegment
  terminate : Bool

/-- Fault and halt codes, `enum struct VMInterruptException : std::uint8_t`. -/
abbrev VMInterruptException := Fin 256

def VMInterruptException.Halt : VMInterruptException := 0
def VMInterruptException.IllegalInstruction : VMInterruptException := 1
def VMInterruptException.SegmentationFault : VMInterruptException := 2

namespace VMEngine

/-- Default member initialiser of `VMEngine::_context`: register array all
zero, vector table all zero, an 8 MiB zeroed segment, flag clear. -/
def context_default : VMContext :=
  { regs :=
      { nul := 0, r1 := 0, r2 := 0, r3 := 0, r4 := 0, r5 := 0, r6 := 0, r7 := 0,
        rbase := 0, rstack := 0, rzero := 0, rones := 0, reserved12 := 0,
        reserved13 := 0, rflags := 0, pc := 0 }
    irt := { routines := fun _ => 0 }
    stack := VMMemorySegment.mk_sized (8 * 1024 * 1024)
    terminate := false }

/-- Constructor `VMEngine::VMEngine()`. The host address of the segment buffer,
`(std::uint64_t)(_context.stack.ptr.get())`, is the parameter `stack_ptr`. -/
def new (stack_ptr : Nat) : VMContext :=
  let c := context_default
  let regs := c.regs
  let regs := { regs with nul := 0 }
  let regs := { regs with r1 := 0 }
  let regs := { regs with r2 := 0 }
  let regs := { regs with r3 := 0 }
  let regs := { regs with r4 := 0 }
  let regs := { regs with r5 := 0 }
  let regs := { regs with r6 := 0 }
  let regs := { regs with r7 := 0 }
  let regs := { regs with rstack := stack_ptr % U64 }
  let regs := { regs with rbase := regs.rstack }
  let regs := { regs with rflags := 0 }
  let regs := { regs with rzero := 0 }
  let regs := { regs with rones := 0xffffffffffffffff }
  let regs := { regs with pc := 0 }
  { c with regs := regs }

/-- Statement `++context.regs.pc` on a 64-bit unsigned program counter. -/
def inc_pc (context : VMContext) : VMContext :=
  { context with regs := { context.regs with pc := (context.regs.pc + 1) % U64 } }

/-- Handler `VMEngine::ins_interrupt`. -/
def ins_interrupt (context : VMContext) (instruction : VMInstruction) : VMContext :=
  if instruction.d = 0 then
    { context with terminate := true }
  else
    { context with regs := { context.regs with pc := context.irt.routines instruction.d } }

/-- Handler `VMEngine::ins_add`: the arithmetic is commented out in the
source, only the increment of the program counter is executed. -/
def ins_add (context : VMContext) (_instruction : VMInstruction) : VMContext :=
  inc_pc context

/-- Handler `VMEngine::ins_sub` (body is a TODO followed by the increment). -/
def ins_sub (context : VMContext) (_instruction : VMInstruction) : VMContext :=
  inc_pc context

/-- Handler `VMEngine::ins_mul` (body is a TODO followed by the increment). -/
def ins_mul (context : VMContext) (_instruction : VMInstruction) : VMContext :=
  inc_pc context

/-- Handler `VMEngine::ins_div` (body is a TODO followed by the increment). -/
def ins_div (context : VMContext) (_instruction : VMInstruction) : VMContext :=
  inc_pc context

/-- Handler `VMEngine::ins_and` (body is a TODO followed by the increment). -/
def ins_and (context : VMContext) (_instruction : VMInstruction) : VMContext :=
  inc_pc context

/-- Handler `VMEngine::ins_or` (body is a TODO followed by the increment). -/
def ins_or (context : VMContext) (_instruction : VMInstruction) : VMContext :=
  inc_pc context

/-- Handler `VMEngine::ins_xor` (body is a TODO followed by the increment). -/
def ins_xor (context : VMContext) (_instruction : VMInstruction) : VMContext :=
  inc_pc context

/-- Handler `VMEngine::ins_load` (body is a TODO followed by the increment). -/
def ins_load (context : VMContext) (_instruction : VMInstruction) : VMContext :=
  inc_pc context

/-- Handler `VMEngine::ins_store` (body is a TODO followed by the increment). -/
def ins_store (context : VMContext) (_instruction : VMInstruction) : VMContext :=
  inc_pc context

/-- Handler `VMEngine::ins_compare` (body is a TODO followed by the increment). -/
def ins_compare (context : VMContext) (_instruction : VMInstruction) : VMContext :=
  inc_pc context

/-- Handler `VMEngine::ins_branch` (body is a TODO followed by the increment). -/
def ins_branch (context : VMContext) (_instruction : VMInstruction) : VMContext :=
  inc_pc context

/-- Handler `VMEngine::ins_move`: the shift is commented out in the source,
only the increment of the program counter is executed. -/
def ins_move (context : VMContext) (_instruction : VMInstruction) : VMContext :=
  inc_pc context

/-- Handler `VMEngine::ins_assign` (body is a TODO followed by the increment). -/
def ins_assign (context : VMContext) (_instruction : VMInstruction) : VMContext :=
  inc_pc context

/-- Handler `VMEngine::ins_extended` ("do nothing", then the increment). -/
def ins_extended (context : VMContext) (_instruction : VMInstruction) : VMContext :=
  inc_pc context

/-- The `switch (instruction.opcode)` of `VMEngine::execute`. There is no
`default` label, so the opcode value without an enumerator runs no handler. -/
def dispatch (context : VMContext) (instruction : VMInstruction) : VMContext :=
  if instruction.opcode = VMOpCode.Interrupt then ins_interrupt context instruction
  else if instruction.opcode = VMOpCode.Add then ins_add context instruction
  else if instruction.opcode = VMOpCode.Sub then ins_sub context instruction
  else if instruction.opcode = VMOpCode.Mul then ins_mul context instruction
  else if instruction.opcode = VMOpCode.Div then ins_div context instruction
  else if instruction.opcode = VMOpCode.And then ins_and context instruction
  else if instruction.opcode = VMOpCode.Or then ins_or context instruction
  else if instruction.opcode = VMOpCode.Xor then ins_xor context instruction
  else if instruction.opcode = VMOpCode.Load then ins_load context instruction
  else if instruction.opcode = VMOpCode.Store then ins_store context instruction
  else if instruction.opcode = VMOpCode.Compare then ins_compare context instruction
  else if instruction.opcode = VMOpCode.Branch then ins_branch context instruction
  else if instruction.opcode = VMOpCode.Move then ins_move context instruction
  else if instruction.opcode = VMOpCode.Assign then ins_assign context instruction
  else if instruction.opcode = VMOpCode.Extended then ins_extended context instruction
  else context

/-- Body of the `while` loop of `VMEngine::execute`: one loop iteration. -/
def loopBody (instructions : List VMInstruction) (context : VMContext) : VMContext :=
  if h : instructions.length ≤ context.regs.pc then
    { context with
      regs := { context.regs with pc := (VMInterruptException.SegmentationFault).val % 256 } }
  else
    dispatch context (instructions.get ⟨context.regs.pc, Nat.lt_of_not_le h⟩)

/-- State after at most `n` iterations of `while (!_context.terminate)`: the
guard is tested before every iteration and a set flag ends the loop. -/
def loop (instructions : List VMInstruction) : Nat → VMContext → VMContext
  | 0, context => context
  | n + 1, context =>
    if context.terminate then context
    else loop instructions n (loopBody instructions context)

/-- Method `VMEngine::execute` with a bound on the number of loop iterations:
`some` final state when the loop ends within `fuel` iterations, `none` when
the guard still holds after `fuel` iterations. -/
def execute (instructions : List VMInstruction) : Nat → VMContext → Option VMContext
  | 0, context => if context.terminate then some context else none
  | fuel + 1, context =>
    if context.terminate then some context
    else execute instructions fuel (loopBody instructions context)

/-- Right operand of an arithmetic instruction as the notes of `vm.h` and the
specification describe it (`y:reg_rhs/value`, register `nul` "selects value
part of the instruction"): register `y`, or the immediate `v` zero-extended
when `y` is the index of `nul`. No handler of the source computes it. -/
def operand_y (context : VMContext) (instruction : VMInstruction) : Nat :=
  if instruction.y = VMRegIdx.Nul then instruction.v.val
  else context.regs.arr instruction.y

/-- Left operand of an arithmetic instruction in the same notes: register `x`. -/
def operand_x (context : VMContext) (instruction : VMInstruction) : Nat :=
  context.regs.arr instruction.x

/-- Relation between a state and a successor that differs from it at most in
the program counter and in the termination flag. -/
def OnlyPcAndFlag (context result : VMContext) : Prop :=
  ∃ p t, result = { context with regs := { context.regs with pc := p }, terminate := t }

/-- Values of the three constant registers: `nul` and `rzero` hold zero and
`rones` holds all ones. -/
def constants_hold (regs : VMRegisterSet) : Prop :=
  regs.nul = 0 ∧ regs.rzero = 0 ∧ regs.rones = 2 ^ 64 - 1

instance (regs : VMRegisterSet) : Decidable (constants_hold regs) := by
  unfold constants_hold; infer_instance

/-- Test that the instruction at the program counter of a state is the halt
instruction, `interrupt` with `d = 0`. -/
def at_halt (instructions : List VMInstruction) (context : VMContext) : Prop :=
  ∃ instruction, instructions[context.regs.pc]? = some instruction
    ∧ instruction.opcode = VMOpCode.Interrupt ∧ instruction.d = 0

/-- Opcodes whose handler is expected to fall through to the next instruction:
the arithmetic and bitwise ones, load and store, compare, move and assign. -/
def fall_through_opcodes : List VMOpCode :=
  [VMOpCode.Add, VMOpCode.Sub, VMOpCode.Mul, VMOpCode.Div, VMOpCode.And, VMOpCode.Or,
   VMOpCode.Xor, VMOpCode.Load, VMOpCode.Store, VMOpCode.Compare, VMOpCode.Move,
   VMOpCode.Assign]

end VMEngine

/-- Program `example_halt` of `main.cpp`: the fields that the designated
initialiser leaves out are zero. -/
def example_halt : List VMInstruction :=
  [{ opcode := VMOpCode.Interrupt, d := ⟨(VMInterruptException.Halt).val % 16, by decide⟩,
     x := 0, y := 0, v := 0 }]

/-! ## Auxiliary facts about the loop -/

namespace VMEngine

theorem loopBody_fetch {instructions : List VMInstruction} {context : VMContext}
    {instruction : VMInstruction}
    (hfetch : instructions[context.regs.pc]? = some instruction) :
    loopBody instructions context = dispatch context instruction := by
  have hlt : context.regs.pc < instructions.length := by
    by_contra hge
    rw [List.getElem?_eq_none (Nat.le_of_not_lt hge)] at hfetch
    cases hfetch
  rw [List.getElem?_eq_getElem hlt] at hfetch
  have hget : instructions[context.regs.pc] = instruction := Option.some.inj hfetch
  unfold loopBody
  rw [dif_neg (Nat.not_le.mpr hlt), List.get_eq_getElem]
  exact congrArg _ hget

theorem loopBody_past_end {instructions : List VMInstruction} {context : VMContext}
    (hpc : instructions.length ≤ context.regs.pc) :
    loopBody instructions context = { context with regs := { context.regs with pc := 2 } } := by
  unfold loopBody
  rw [dif_pos hpc]
  rfl

theorem arr_set_pc (regs : VMRegisterSet) (p : Nat) (i : Fin 16) (hi : i ≠ VMRegIdx.PC) :
    ({ regs with pc := p } : VMRegisterSet).arr i = regs.arr i := by
  revert hi
  fin_cases i <;> simp [VMRegisterSet.arr, VMRegIdx.PC]

theorem OnlyPcAndFlag.of_ite {context a b : VMContext} {c : Prop} [Decidable c]
    (ha : OnlyPcAndFlag context a) (hb : OnlyPcAndFlag context b) :
    OnlyPcAndFlag context (if c then a else b) := by
  by_cases hc : c
  · rw [if_pos hc]; exact ha
  · rw [if_neg hc]; exact hb

theorem OnlyPcAndFlag.inc_pc (context : VMContext) :
    OnlyPcAndFlag context (inc_pc context) :=
  ⟨_, context.terminate, rfl⟩

theorem OnlyPcAndFlag.same (context : VMContext) : OnlyPcAndFlag context context :=
  ⟨context.regs.pc, context.terminate, rfl⟩

theorem OnlyPcAndFlag.ins_interrupt (context : VMContext) (instruction : VMInstruction) :
    OnlyPcAndFlag context (ins_interrupt context instruction) :=
  OnlyPcAndFlag.of_ite ⟨context.regs.pc, true, rfl⟩ ⟨_, context.terminate, rfl⟩

/-- Every handler, and the `switch` as a whole, writes at most the program
counter and the termination flag. -/
theorem dispatch_shape (context : VMContext) (instruction : VMInstruction) :
    OnlyPcAndFlag context (dispatch context instruction) := by
  unfold dispatch
  refine OnlyPcAndFlag.of_ite (OnlyPcAndFlag.ins_interrupt _ _) ?_
  iterate 14 refine OnlyPcAndFlag.of_ite (OnlyPcAndFlag.inc_pc _) ?_
  exact OnlyPcAndFlag.same _

theorem loopBody_shape (instructions : List VMInstruction) (context : VMContext) :
    OnlyPcAndFlag context (loopBody instructions context) := by
  unfold loopBody
  split
  · exact ⟨_, context.terminate, rfl⟩
  · exact dispatch_shape _ _

theorem dispatch_interrupt {context : VMContext} {instruction : VMInstruction}
    (hop : instruction.opcode = VMOpCode.Interrupt) :
    dispatch context instruction = ins_interrupt context instruction := by
  unfold dispatch
  rw [if_pos hop]

theorem loopBody_past_end_terminate {instructions : List VMInstruction} {context : VMContext}
    (hpc : instructions.length ≤ context.regs.pc) :
    (loopBody instructions context).terminate = context.terminate := by
  rw [loopBody_past_end hpc]

/-- A property that holds initially and is kept by the loop body holds after
any number of iterations. -/
theorem loop_induction (instructions : List VMInstruction) (P : VMContext → Prop)
    (hstep : ∀ c, P c → P (loopBody instructions c)) :
    ∀ (n : Nat) (c : VMContext), P c → P (loop instructions n c) := by
  intro n
  induction n with
  | zero => intro c hc; exact hc
  | succ k ih =>
    intro c hc
    unfold loop
    split
    · exact hc
    · exact ih _ (hstep c hc)

theorem execute_of_terminate_body {instructions : List VMInstruction} {context : VMContext}
    (hrun : context.terminate = false)
    (hend : (loopBody instructions context).terminate = true) (fuel : Nat) :
    execute instructions (fuel + 1) context = some (loopBody instructions context) := by
  unfold execute
  rw [hrun]
  cases fuel with
  | zero => simp [execute, hend]
  | succ k => simp [execute, hend]

theorem execute_zero_running {instructions : List VMInstruction} {context : VMContext}
    (hrun : context.terminate = false) : execute instructions 0 context = none := by
  simp [execute, hrun]

/-- With an empty program the loop never ends. -/
theorem execute_nil_none : ∀ (fuel : Nat) (context : VMContext),
    context.terminate = false → execute [] fuel context = none := by
  intro fuel
  induction fuel with
  | zero => intro c hc; exact execute_zero_running hc
  | succ k ih =>
    intro c hc
    unfold execute
    rw [hc]
    have hnext : (loopBody [] c).terminate = false := by
      rw [loopBody_past_end_terminate (Nat.zero_le _)]; exact hc
    simpa using ih _ hnext

theorem constants_hold_of_shape {context result : VMContext}
    (h : OnlyPcAndFlag context result) (hc : constants_hold context.regs) :
    constants_hold result.regs := by
  obtain ⟨p, t, rfl⟩ := h
  exact hc

theorem arr_of_shape {context result : VMContext} (h : OnlyPcAndFlag context result)
    (i : Fin 16) (hi : i ≠ VMRegIdx.PC) : result.regs.arr i = context.regs.arr i := by
  obtain ⟨p, t, rfl⟩ := h
  exact arr_set_pc _ _ i hi

theorem fetch_lt {instructions : List VMInstruction} {context : VMContext}
    {instruction : VMInstruction}
    (hfetch : instructions[context.regs.pc]? = some instruction) :
    context.regs.pc < instructions.length := by
  by_contra hge
  rw [List.getElem?_eq_none (Nat.le_of_not_lt hge)] at hfetch
  cases hfetch

/-- Every opcode other than `Interrupt` and the value without an enumerator
runs a handler that only increments the program counter. -/
theorem dispatch_fallthrough {context : VMContext} {instruction : VMInstruction}
    (h0 : instruction.opcode ≠ VMOpCode.Interrupt) (h8 : instruction.opcode ≠ 8) :
    dispatch context instruction = inc_pc context := by
  obtain ⟨op, d, x, y, v⟩ := instruction
  simp only at h0 h8
  fin_cases op
  · exact absurd rfl h0
  iterate 7 rfl
  · exact absurd rfl h8
  all_goals rfl

theorem dispatch_undefined {context : VMContext} {instruction : VMInstruction}
    (hop : instruction.opcode = 8) : dispatch context instruction = context := by
  unfold dispatch
  rw [hop]
  rfl

theorem loop_of_terminated (instructions : List VMInstruction) (n : Nat)
    {context : VMContext} (hend : context.terminate = true) :
    loop instructions n context = context := by
  cases n with
  | zero => rfl
  | succ k => unfold loop; rw [if_pos hend]

theorem loop_succ_running (instructions : List VMInstruction) (n : Nat)
    {context : VMContext} (hrun : context.terminate = false) :
    loop instructions (n + 1) context = loop instructions n (loopBody instructions context) := by
  conv => lhs; unfold loop
  rw [hrun]
  rfl

/-- The fuelled run returns the state reached by the bounded loop exactly when
that state has the termination flag set. -/
theorem execute_eq_loop (instructions : List VMInstruction) :
    ∀ (fuel : Nat) (context : VMContext),
      execute instructions fuel context
        = if (loop instructions fuel context).terminate then
            some (loop instructions fuel context)
          else none := by
  intro fuel
  induction fuel with
  | zero => intro c; rfl
  | succ k ih =>
    intro c
    cases hc : c.terminate with
    | true =>
      rw [loop_of_terminated instructions _ hc]
      unfold execute
      rw [if_pos hc, if_pos hc]
    | false =>
      rw [loop_succ_running instructions k hc, ← ih]
      conv => lhs; unfold execute
      rw [hc]
      rfl

/-- A state that the loop body maps to itself is never left. -/
theorem loop_fixed {instructions : List VMInstruction} {context : VMContext}
    (hfix : loopBody instructions context = context) :
    ∀ n, loop instructions n context = context := by
  intro n
  induction n with
  | zero => rfl
  | succ k ih =>
    cases hc : context.terminate with
    | true => exact loop_of_terminated instructions _ hc
    | false => rw [loop_succ_running instructions k hc, hfix, ih]

theorem execute_fixed {instructions : List VMInstruction} {context : VMContext}
    (hrun : context.terminate = false)
    (hfix : loopBody instructions context = context) :
    ∀ fuel, execute instructions fuel context = none := by
  intro fuel
  rw [execute_eq_loop, loop_fixed hfix fuel, hrun]
  rfl

theorem dispatch_terminate_of_not_interrupt {context : VMContext}
    {instruction : VMInstruction} (h0 : instruction.opcode ≠ VMOpCode.Interrupt) :
    (dispatch context instruction).terminate = context.terminate := by
  by_cases h8 : instruction.opcode = 8
  · rw [dispatch_undefined h8]
  · rw [dispatch_fallthrough h0 h8]
    rfl

/-- One loop iteration of a running machine sets the termination flag exactly
when the instruction at the program counter is the halt instruction. -/
theorem loopBody_terminate_iff {instructions : List VMInstruction} {context : VMContext}
    (hrun : context.terminate = false) :
    (loopBody instructions context).terminate = true ↔ at_halt instructions context := by
  by_cases hpc : instructions.length ≤ context.regs.pc
  · rw [loopBody_past_end_terminate hpc, hrun]
    constructor
    · intro h; cases h
    · rintro ⟨instruction, hfetch, -, -⟩
      exact absurd (fetch_lt hfetch) (Nat.not_lt.mpr hpc)
  · have hlt : context.regs.pc < instructions.length := Nat.lt_of_not_le hpc
    have hfetch : instructions[context.regs.pc]? = some instructions[context.regs.pc] :=
      List.getElem?_eq_getElem hlt
    rw [loopBody_fetch hfetch]
    by_cases hop : instructions[context.regs.pc].opcode = VMOpCode.Interrupt
    · rw [dispatch_interrupt hop]
      unfold ins_interrupt
      by_cases hd : instructions[context.regs.pc].d = 0
      · rw [if_pos hd]
        exact ⟨fun _ => ⟨_, hfetch, hop, hd⟩, fun _ => rfl⟩
      · rw [if_neg hd]
        constructor
        · intro h
          have hfalse : context.terminate = true := h
          rw [hrun] at hfalse
          cases hfalse
        · rintro ⟨instruction, hfetch2, -, hd2⟩
          rw [hfetch] at hfetch2
          cases hfetch2
          exact absurd hd2 hd
    · rw [dispatch_terminate_of_not_interrupt hop, hrun]
      constructor
      · intro h; cases h
      · rintro ⟨instruction, hfetch2, hop2, -⟩
        rw [hfetch] at hfetch2
        cases hfetch2
        exact absurd hop2 hop

/-- The bounded loop unfolded at its last iteration. -/
theorem loop_succ_end (instructions : List VMInstruction) :
    ∀ (n : Nat) (context : VMContext),
      loop instructions (n + 1) context
        = if (loop instructions n context).terminate then loop instructions n context
          else loopBody instructions (loop instructions n context) := by
  intro n
  induction n with
  | zero =>
    intro c
    cases hc : c.terminate with
    | true =>
      rw [loop_of_terminated instructions _ hc, loop_of_terminated instructions _ hc,
        if_pos hc]
    | false =>
      rw [loop_succ_running instructions 0 hc]
      show loopBody instructions c = if c.terminate then c else loopBody instructions c
      rw [hc]
      rfl
  | succ k ih =>
    intro c
    cases hc : c.terminate with
    | true =>
      rw [loop_of_terminated instructions _ hc, loop_of_terminated instructions _ hc,
        if_pos hc]
    | false =>
      rw [loop_succ_running instructions (k + 1) hc, loop_succ_running instructions k hc]
      exact ih _

theorem execute_isSome_iff (instructions : List VMInstruction) (fuel : Nat)
    (context : VMContext) :
    (execute instructions fuel context).isSome = true
      ↔ (loop instructions fuel context).terminate = true := by
  rw [execute_eq_loop]
  cases h : (loop instructions fuel context).terminate <;> simp

theorem loop_add_of_terminated (instructions : List VMInstruction) (n : Nat)
    {context : VMContext} (hend : (loop instructions n context).terminate = true) :
    ∀ m, loop instructions (n + m) context = loop instructions n context := by
  intro m
  induction m with
  | zero => rfl
  | succ j ih =>
    rw [← Nat.add_assoc, loop_succ_end, ih, if_pos hend]

theorem irt_stack_of_shape {context result : VMContext} (h : OnlyPcAndFlag context result) :
    result.irt = context.irt ∧ result.stack = context.stack := by
  obtain ⟨p, t, rfl⟩ := h
  exact ⟨rfl, rfl⟩

/-- Any number of loop iterations changes at most the program counter and the
termination flag. -/
theorem loop_shape (instructions : List VMInstruction) (n : Nat) (context : VMContext) :
    OnlyPcAndFlag context (loop instructions n context) := by
  refine loop_induction instructions (fun c => OnlyPcAndFlag context c) ?_ n context
    (OnlyPcAndFlag.same context)
  intro c hc
  obtain ⟨p, t, rfl⟩ := hc
  obtain ⟨p2, t2, h2⟩ := loopBody_shape instructions
    { context with regs := { context.regs with pc := p }, terminate := t }
  exact ⟨p2, t2, h2⟩

/-- While every instruction before index `k` falls through, the first `j ≤ k`
loop iterations from the freshly constructed machine only move the program
counter to `j`. -/
theorem loop_straight_line (instructions : List VMInstruction) (k stack_ptr : Nat)
    (hlen : k < instructions.length) (hk64 : k < 2 ^ 64)
    (hpre : ∀ i instruction, i < k → instructions[i]? = some instruction →
      instruction.opcode ≠ VMOpCode.Interrupt ∧ instruction.opcode ≠ 8) :
    ∀ j, j ≤ k → loop instructions j (new stack_ptr)
      = { new stack_ptr with regs := { (new stack_ptr).regs with pc := j } } := by
  intro j
  induction j with
  | zero => intro _; rfl
  | succ i ih =>
    intro hi
    have hik : i < k := hi
    have hfetch : instructions[i]? = some instructions[i] :=
      List.getElem?_eq_getElem (Nat.lt_trans hik hlen)
    have hops := hpre i _ hik hfetch
    have hmod : (i + 1) % U64 = i + 1 := Nat.mod_eq_of_lt (by unfold U64; omega)
    rw [loop_succ_end, ih (Nat.le_of_lt hik)]
    have hstep : loopBody instructions
        { new stack_ptr with regs := { (new stack_ptr).regs with pc := i } }
        = inc_pc { new stack_ptr with regs := { (new stack_ptr).regs with pc := i } } := by
      have hfetch2 : instructions[({ new stack_ptr with
          regs := { (new stack_ptr).regs with pc := i } } : VMContext).regs.pc]?
          = some instructions[i] := hfetch
      rw [loopBody_fetch hfetch2, dispatch_fallthrough hops.1 hops.2]
    rw [hstep]
    show ({ new stack_ptr with
        regs := { (new stack_ptr).regs with pc := (i + 1) % U64 } } : VMContext) = _
    rw [hmod]

/-- C1 (halt). In every running state whose current instruction is `interrupt`
with `d = 0`, one loop iteration sets the termination flag and changes no
register, no vector-table entry and no memory byte, so `execute` returns after
exactly one iteration. For the program `example_halt` on a freshly constructed
machine: no iteration is not enough, one iteration is, the fetch is in range
(no fault), and all sixteen registers keep their construction values. -/
theorem interrupt_halt (stack_ptr : Nat) (instructions : List VMInstruction)
    (context : VMContext) (instruction : VMInstruction)
    (hrun : context.terminate = false)
    (hfetch : instructions[context.regs.pc]? = some instruction)
    (hop : instruction.opcode = VMOpCode.Interrupt) (hd : instruction.d = 0) :
    (loopBody instructions context = { context with terminate := true }
      ∧ execute instructions 0 context = none
      ∧ ∀ fuel, execute instructions (fuel + 1) context
          = some { context with terminate := true })
    ∧ (execute example_halt 0 (new stack_ptr) = none
      ∧ (∀ fuel, execute example_halt (fuel + 1) (new stack_ptr)
          = some { new stack_ptr with terminate := true })
      ∧ (new stack_ptr).regs.pc < example_halt.length
      ∧ ∀ fuel final, execute example_halt fuel (new stack_ptr) = some final →
          final.terminate = true ∧ final.regs = (new stack_ptr).regs
          ∧ ∀ i, final.regs.arr i = (new stack_ptr).regs.arr i) := by
  have hbody : loopBody instructions context = { context with terminate := true } := by
    rw [loopBody_fetch hfetch, dispatch_interrupt hop]
    unfold ins_interrupt
    rw [if_pos hd]
  have hnew : loopBody example_halt (new stack_ptr)
      = { new stack_ptr with terminate := true } := rfl
  have hscen : ∀ fuel, execute example_halt (fuel + 1) (new stack_ptr)
      = some { new stack_ptr with terminate := true } := by
    intro fuel
    rw [execute_of_terminate_body rfl (by rw [hnew]) fuel, hnew]
  refine ⟨⟨hbody, execute_zero_running hrun, ?_⟩, execute_zero_running rfl, hscen, ?_, ?_⟩
  · intro fuel
    rw [execute_of_terminate_body hrun (by rw [hbody]) fuel, hbody]
  · exact Nat.zero_lt_one
  · intro fuel final hfinal
    cases fuel with
    | zero => rw [execute_zero_running rfl] at hfinal; cases hfinal
    | succ k =>
      rw [hscen k] at hfinal
      cases hfinal
      exact ⟨rfl, rfl, fun _ => rfl⟩

/-- Witness of C1: the program of `main.cpp` on the machine built at address 0. -/
theorem interrupt_halt_witness :
    loopBody example_halt (new 0) = { new 0 with terminate := true }
    ∧ execute example_halt 1 (new 0) = some { new 0 with terminate := true } :=
  have h := interrupt_halt 0 example_halt (new 0)
    { opcode := VMOpCode.Interrupt, d := 0, x := 0, y := 0, v := 0 } rfl rfl rfl rfl
  ⟨h.1.1, h.1.2.2 0⟩

/-- Counterexample to C2: the empty program on the freshly constructed machine
(flag clear, program counter past the end, entry 2 of the vector table zero)
never ends: no number of loop iterations makes `execute` return. -/
theorem pc_past_end_empty_program_never_halts :
    (new 0).terminate = false
    ∧ ([] : List VMInstruction).length ≤ (new 0).regs.pc
    ∧ (new 0).irt.routines 2 = 0
    ∧ ¬ ∃ fuel, (execute [] fuel (new 0)).isSome = true := by
  refine ⟨rfl, Nat.le_refl _, rfl, ?_⟩
  rintro ⟨fuel, hfuel⟩
  rw [execute_nil_none fuel (new 0) rfl] at hfuel
  cases hfuel

/-- C2, amended. In every running state whose program counter is past the end
of the program (whatever the vector table holds), one loop iteration leaves
the termination flag clear and changes no register other than the program
counter, no vector-table entry and no memory byte: the loop goes on. For the
empty program, from every running state and from every freshly constructed
machine, `execute` does not return within any number of iterations. -/
theorem pc_past_end_continues (instructions : List VMInstruction) (context : VMContext)
    (hrun : context.terminate = false)
    (hpc : instructions.length ≤ context.regs.pc) :
    (loopBody instructions context).terminate = false
    ∧ (∀ i, i ≠ VMRegIdx.PC →
        (loopBody instructions context).regs.arr i = context.regs.arr i)
    ∧ (loopBody instructions context).irt = context.irt
    ∧ (loopBody instructions context).stack = context.stack
    ∧ (∀ fuel, execute [] fuel context = none)
    ∧ ∀ stack_ptr fuel, execute [] fuel (new stack_ptr) = none := by
  rw [loopBody_past_end hpc]
  exact ⟨hrun, fun i hi => arr_set_pc _ _ i hi, rfl, rfl,
    fun fuel => execute_nil_none fuel context hrun,
    fun stack_ptr fuel => execute_nil_none fuel (new stack_ptr) rfl⟩

/-- Witness of C2, amended: the empty program on the machine built at address 0. -/
theorem pc_past_end_continues_witness :
    (loopBody [] (new 0)).terminate = false ∧ execute [] 1000 (new 0) = none :=
  have h := pc_past_end_continues [] (new 0) rfl (Nat.le_refl _)
  ⟨h.1, h.2.2.2.2.1 1000⟩

/-- C3 (interrupt with a non-zero number). In every running state whose
current instruction is `interrupt` with `d` in 1..15, one loop iteration sets
the program counter to entry `d` of the vector table, without any further
increment, leaves the termination flag clear and changes no other register,
no vector-table entry and no memory byte. -/
theorem interrupt_vector_jump (instructions : List VMInstruction) (context : VMContext)
    (instruction : VMInstruction)
    (hrun : context.terminate = false)
    (hfetch : instructions[context.regs.pc]? = some instruction)
    (hop : instruction.opcode = VMOpCode.Interrupt) (hd : instruction.d ≠ 0) :
    loopBody instructions context
      = { context with
          regs := { context.regs with pc := context.irt.routines instruction.d } }
    ∧ (loopBody instructions context).regs.pc = context.irt.routines instruction.d
    ∧ (loopBody instructions context).terminate = false
    ∧ (∀ i, i ≠ VMRegIdx.PC →
        (loopBody instructions context).regs.arr i = context.regs.arr i)
    ∧ (loopBody instructions context).irt = context.irt
    ∧ (loopBody instructions context).stack = context.stack := by
  have hbody : loopBody instructions context
      = { context with
          regs := { context.regs with pc := context.irt.routines instruction.d } } := by
    rw [loopBody_fetch hfetch, dispatch_interrupt hop]
    unfold ins_interrupt
    rw [if_neg hd]
  rw [hbody]
  exact ⟨rfl, rfl, hrun, fun i hi => arr_set_pc _ _ i hi, rfl, rfl⟩

/-- Witness of C3: `interrupt` with `d = 3` at index 0, in a state whose
vector table maps `n` to `100 + n` and whose program counter is 0. -/
theorem interrupt_vector_jump_witness :
    (loopBody [{ opcode := VMOpCode.Interrupt, d := 3, x := 0, y := 0, v := 0 }]
      { new 0 with irt := { routines := fun n => 100 + n.val } }).regs.pc = 103 :=
  (interrupt_vector_jump
    [{ opcode := VMOpCode.Interrupt, d := 3, x := 0, y := 0, v := 0 }]
    { new 0 with irt := { routines := fun n => 100 + n.val } }
    { opcode := VMOpCode.Interrupt, d := 3, x := 0, y := 0, v := 0 }
    rfl rfl rfl (by decide)).2.1

/-- C4 (constant registers). In every state in which `nul = 0`, `rzero = 0` and
`rones = 2^64 - 1`, the three values still hold after the handler of any
instruction word (any opcode, `d`, `x`, `y`, `v`) and after one loop iteration
of any program; hence they hold after any number of loop iterations from the
freshly constructed machine. -/
theorem constant_registers_preserved (stack_ptr : Nat) (instructions : List VMInstruction)
    (context : VMContext) (instruction : VMInstruction)
    (hnul : context.regs.nul = 0) (hzero : context.regs.rzero = 0)
    (hones : context.regs.rones = 2 ^ 64 - 1) :
    constants_hold (dispatch context instruction).regs
    ∧ constants_hold (loopBody instructions context).regs
    ∧ ∀ n, constants_hold (loop instructions n (new stack_ptr)).regs := by
  have hc : constants_hold context.regs := ⟨hnul, hzero, hones⟩
  refine ⟨constants_hold_of_shape (dispatch_shape _ _) hc,
    constants_hold_of_shape (loopBody_shape _ _) hc, ?_⟩
  intro n
  refine loop_induction instructions (fun c => constants_hold c.regs) ?_ n (new stack_ptr) ?_
  · intro c hcc
    exact constants_hold_of_shape (loopBody_shape _ _) hcc
  · exact ⟨rfl, rfl, rfl⟩

/-- Witness of C4: `add` with destination `rones` (index 11) on the machine
built at address 4096. -/
theorem constant_registers_preserved_witness :
    constants_hold (new 4096).regs
    ∧ constants_hold
        (dispatch (new 4096) { opcode := VMOpCode.Add, d := 11, x := 1, y := 0, v := 7 }).regs :=
  ⟨⟨rfl, rfl, rfl⟩,
   (constant_registers_preserved 4096
      [{ opcode := VMOpCode.Add, d := 11, x := 1, y := 0, v := 7 }] (new 4096)
      { opcode := VMOpCode.Add, d := 11, x := 1, y := 0, v := 7 } rfl rfl rfl).1⟩

/-- C5, the code at a failing input: on the freshly constructed machine the
instruction `add d=r1, x=r2, y=nul, v=5` has operands 0 and 5, whose wrapped
sum is 5, and after the loop iteration register `r1` still holds 0. -/
theorem add_does_not_store_sum :
    (new 0).terminate = false
    ∧ (operand_x (new 0) { opcode := VMOpCode.Add, d := 1, x := 2, y := 0, v := 5 }
        + operand_y (new 0) { opcode := VMOpCode.Add, d := 1, x := 2, y := 0, v := 5 })
        % 2 ^ 64 = 5
    ∧ (loopBody [{ opcode := VMOpCode.Add, d := 1, x := 2, y := 0, v := 5 }]
        (new 0)).regs.arr 1 = 0 :=
  ⟨rfl, rfl, rfl⟩

/-- C6, the code at a failing input: on the freshly constructed machine the
instruction `add d=r1, x=rones, y=nul, v=1` has operands `2^64 - 1` and 1,
whose sum exceeds `2^64 - 1`, and after the loop iteration bit 0 (the overflow
bit) of the flags register is 0. -/
theorem add_does_not_set_overflow :
    2 ^ 64 - 1 <
      operand_x (new 0) { opcode := VMOpCode.Add, d := 1, x := 11, y := 0, v := 1 }
        + operand_y (new 0) { opcode := VMOpCode.Add, d := 1, x := 11, y := 0, v := 1 }
    ∧ ((loopBody [{ opcode := VMOpCode.Add, d := 1, x := 11, y := 0, v := 1 }]
        (new 0)).regs.arr VMRegIdx.RFlags / 2 ^ VMRFlagOffset.overflow) % 2 = 0 := by
  constructor
  · decide
  · rfl

/-- C9, the code at a failing input: on the freshly constructed machine, for
every size selector `d`, after `store d, x=rones, y=nul, v=0` followed by
`load d, x=r1, y=nul, v=0` register `r1` holds 0 and the byte at offset 0 is
still 0, while for each width `w` in 1, 2, 4, 8 the low `w` bytes of the
stored register are `2^(8w) - 1`, which is not 0. -/
theorem store_load_does_not_round_trip :
    (new 0).terminate = false
    ∧ (new 0).regs.arr 11 = 2 ^ 64 - 1
    ∧ (∀ w ∈ [1, 2, 4, 8], 0 + w ≤ (new 0).stack.size
        ∧ (new 0).regs.arr 11 % 2 ^ (8 * w) = 2 ^ (8 * w) - 1
        ∧ (new 0).regs.arr 11 % 2 ^ (8 * w) ≠ 0)
    ∧ ∀ d : Fin 16,
        (loopBody
          [{ opcode := VMOpCode.Store, d := d, x := 11, y := 0, v := 0 },
           { opcode := VMOpCode.Load, d := d, x := 1, y := 0, v := 0 }]
          (loopBody
            [{ opcode := VMOpCode.Store, d := d, x := 11, y := 0, v := 0 },
             { opcode := VMOpCode.Load, d := d, x := 1, y := 0, v := 0 }]
            (new 0))).regs.arr 1 = 0
        ∧ (loopBody
          [{ opcode := VMOpCode.Store, d := d, x := 11, y := 0, v := 0 },
           { opcode := VMOpCode.Load, d := d, x := 1, y := 0, v := 0 }]
          (loopBody
            [{ opcode := VMOpCode.Store, d := d, x := 11, y := 0, v := 0 },
             { opcode := VMOpCode.Load, d := d, x := 1, y := 0, v := 0 }]
            (new 0))).stack.ptr 0 = 0 := by
  refine ⟨rfl, rfl, ?_, ?_⟩
  · decide
  · intro d
    exact ⟨rfl, rfl⟩

/-- C11, the code at a failing input: on the freshly constructed machine, where
`r1` holds 0, the instruction `assign d=r1, v=0xABCD` leaves `r1 = 0` for every
pair of range fields `x`, `y` (in particular `x = 0`, `y = 15`), not `0xABCD`;
and after a further `assign d=r1, v=0x1234`, again for every pair of range
fields, `r1` is still 0, not `0x1234ABCD`. -/
theorem assign_does_not_write_bits :
    (new 0).terminate = false
    ∧ (new 0).regs.arr 1 = 0
    ∧ (loopBody [{ opcode := VMOpCode.Assign, d := 1, x := 0, y := 15, v := 0xABCD }]
        (new 0)).regs.arr 1 = 0
    ∧ (0 : Nat) ≠ 0xABCD
    ∧ (0 : Nat) ≠ 0x1234ABCD
    ∧ ∀ x y x2 y2 : Fin 16,
        (loopBody
          [{ opcode := VMOpCode.Assign, d := 1, x := x, y := y, v := 0xABCD },
           { opcode := VMOpCode.Assign, d := 1, x := x2, y := y2, v := 0x1234 }]
          (new 0)).regs.arr 1 = 0
        ∧ (loopBody
          [{ opcode := VMOpCode.Assign, d := 1, x := x, y := y, v := 0xABCD },
           { opcode := VMOpCode.Assign, d := 1, x := x2, y := y2, v := 0x1234 }]
          (loopBody
            [{ opcode := VMOpCode.Assign, d := 1, x := x, y := y, v := 0xABCD },
             { opcode := VMOpCode.Assign, d := 1, x := x2, y := y2, v := 0x1234 }]
            (new 0))).regs.arr 1 = 0 := by
  refine ⟨rfl, rfl, rfl, by decide, by decide, ?_⟩
  intro x y x2 y2
  exact ⟨rfl, rfl⟩

/-- C12, the code at a failing input: for every condition selector `d` (and
every `x`), with the program `add r1,r1,nul,0` followed by
`branch d, y=nul, v=0xFFFF` (offset -1) on the freshly constructed machine,
the first loop iteration reaches the branch at `pc = 1` with the flag clear,
and the iteration that runs the branch sets `pc` to 2 (`p + 1`), not to 0
(`p - 1`). -/
theorem branch_does_not_jump :
    (new 0).terminate = false
    ∧ (1 + 1 : Nat) ≠ 1 - 1
    ∧ ∀ d x : Fin 16,
      (loopBody
        [{ opcode := VMOpCode.Add, d := 1, x := 1, y := 0, v := 0 },
         { opcode := VMOpCode.Branch, d := d, x := x, y := 0, v := 0xFFFF }]
        (new 0)).regs.pc = 1
      ∧ (loopBody
        [{ opcode := VMOpCode.Add, d := 1, x := 1, y := 0, v := 0 },
         { opcode := VMOpCode.Branch, d := d, x := x, y := 0, v := 0xFFFF }]
        (new 0)).terminate = false
      ∧ (loopBody
        [{ opcode := VMOpCode.Add, d := 1, x := 1, y := 0, v := 0 },
         { opcode := VMOpCode.Branch, d := d, x := x, y := 0, v := 0xFFFF }]
        (loopBody
          [{ opcode := VMOpCode.Add, d := 1, x := 1, y := 0, v := 0 },
           { opcode := VMOpCode.Branch, d := d, x := x, y := 0, v := 0xFFFF }]
          (new 0))).regs.pc = 1 + 1 := by
  refine ⟨rfl, by decide, ?_⟩
  intro d x
  exact ⟨rfl, rfl, rfl⟩

/-- C13 (fall-through). In every running state whose current instruction has
opcode add, sub, mul, div, and, or, xor, load, store, compare, move or assign,
whatever its operands (so in particular with a non-zero divisor, an in-bounds
access or a range with start at most end), one loop iteration sets the
program counter to the old value plus one modulo `2^64` and leaves the
termination flag clear. -/
theorem fall_through_step (instructions : List VMInstruction) (context : VMContext)
    (instruction : VMInstruction)
    (hrun : context.terminate = false)
    (hfetch : instructions[context.regs.pc]? = some instruction)
    (hop : instruction.opcode ∈ fall_through_opcodes) :
    context.regs.pc < instructions.length
    ∧ (loopBody instructions context).regs.pc = (context.regs.pc + 1) % 2 ^ 64
    ∧ (loopBody instructions context).terminate = false := by
  have h0 : instruction.opcode ≠ VMOpCode.Interrupt := by
    intro h; rw [h] at hop; exact absurd hop (by decide)
  have h8 : instruction.opcode ≠ 8 := by
    intro h; rw [h] at hop; exact absurd hop (by decide)
  rw [loopBody_fetch hfetch, dispatch_fallthrough h0 h8]
  exact ⟨fetch_lt hfetch, rfl, hrun⟩

/-- Witness of C13: `mul r1,r2,r3` at index 0 on the machine built at address 0. -/
theorem fall_through_step_witness :
    (loopBody [{ opcode := VMOpCode.Mul, d := 1, x := 2, y := 3, v := 0 }]
      (new 0)).regs.pc = (0 + 1) % 2 ^ 64 :=
  (fall_through_step [{ opcode := VMOpCode.Mul, d := 1, x := 2, y := 3, v := 0 }] (new 0)
    { opcode := VMOpCode.Mul, d := 1, x := 2, y := 3, v := 0 }
    rfl rfl (by decide)).2.1

/-- C14 (extended opcodes). In every running state whose current instruction
has opcode `Extended`, for every sub-opcode (`x`, `y`) and all parameters `d`
and `v`, one loop iteration is exactly the increment of the program counter:
the counter becomes the old value plus one (no wrap can occur, the length of
the program being a `std::size_t`), and every other register, the termination
flag, every vector-table entry and every memory byte is unchanged. -/
theorem extended_is_noop (instructions : List VMInstruction) (context : VMContext)
    (instruction : VMInstruction)
    (hrun : context.terminate = false)
    (hfetch : instructions[context.regs.pc]? = some instruction)
    (hop : instruction.opcode = VMOpCode.Extended) :
    loopBody instructions context = inc_pc context
    ∧ (loopBody instructions context).regs.pc = (context.regs.pc + 1) % 2 ^ 64
    ∧ (instructions.length < 2 ^ 64 →
        (loopBody instructions context).regs.pc = context.regs.pc + 1)
    ∧ (loopBody instructions context).terminate = false
    ∧ (∀ i, i ≠ VMRegIdx.PC →
        (loopBody instructions context).regs.arr i = context.regs.arr i)
    ∧ (loopBody instructions context).irt = context.irt
    ∧ (loopBody instructions context).stack = context.stack := by
  have hbody : loopBody instructions context = inc_pc context := by
    rw [loopBody_fetch hfetch]
    exact dispatch_fallthrough (by rw [hop]; decide) (by rw [hop]; decide)
  rw [hbody]
  refine ⟨rfl, rfl, ?_, hrun, fun i hi => arr_set_pc _ _ i hi, rfl, rfl⟩
  intro hlen
  have hlt := fetch_lt hfetch
  show (context.regs.pc + 1) % U64 = context.regs.pc + 1
  exact Nat.mod_eq_of_lt (by unfold U64; omega)

/-- Witness of C14: extended sub-opcode `0xA5` with `d = 7`, `v = 9` at index 0
on the machine built at address 0. -/
theorem extended_is_noop_witness :
    loopBody [{ opcode := VMOpCode.Extended, d := 7, x := 10, y := 5, v := 9 }] (new 0)
      = inc_pc (new 0)
    ∧ (loopBody [{ opcode := VMOpCode.Extended, d := 7, x := 10, y := 5, v := 9 }]
        (new 0)).regs.pc = 0 + 1 :=
  have h := extended_is_noop
    [{ opcode := VMOpCode.Extended, d := 7, x := 10, y := 5, v := 9 }] (new 0)
    { opcode := VMOpCode.Extended, d := 7, x := 10, y := 5, v := 9 } rfl rfl rfl
  ⟨h.1, h.2.2.1 (by decide)⟩

/-- C15 (the flag is set only by the halt interrupt). For every program and
every running state, the state after one loop iteration has the termination
flag set exactly when the program counter is inside the program and the
instruction there is `interrupt` with `d = 0`; the fault path (program counter
past the end) and every other opcode leave the flag clear; and `execute`
returns exactly when some number of loop iterations leads to a running state
whose current instruction is `interrupt` with `d = 0`. -/
theorem terminate_only_by_halt (instructions : List VMInstruction) (context : VMContext)
    (hrun : context.terminate = false) :
    ((loopBody instructions context).terminate = true
      ↔ ∃ instruction, instructions[context.regs.pc]? = some instruction
          ∧ instruction.opcode = VMOpCode.Interrupt ∧ instruction.d = 0)
    ∧ (instructions.length ≤ context.regs.pc →
        (loopBody instructions context).terminate = false)
    ∧ (∀ instruction, instructions[context.regs.pc]? = some instruction →
        instruction.opcode ≠ VMOpCode.Interrupt →
        (loopBody instructions context).terminate = false)
    ∧ ((∃ fuel, (execute instructions fuel context).isSome = true)
      ↔ ∃ n, (loop instructions n context).terminate = false
          ∧ at_halt instructions (loop instructions n context)) := by
  refine ⟨loopBody_terminate_iff hrun, ?_, ?_, ?_, ?_⟩
  · intro hpc
    rw [loopBody_past_end_terminate hpc]; exact hrun
  · intro instruction hfetch hop
    rw [loopBody_fetch hfetch, dispatch_terminate_of_not_interrupt hop]; exact hrun
  · rintro ⟨fuel, hfuel⟩
    rw [execute_isSome_iff] at hfuel
    induction fuel with
    | zero =>
      have hc : context.terminate = true := hfuel
      rw [hrun] at hc
      cases hc
    | succ k ih =>
      cases hk : (loop instructions k context).terminate with
      | true => exact ih hk
      | false =>
        rw [loop_succ_end, hk] at hfuel
        exact ⟨k, hk, (loopBody_terminate_iff hk).mp hfuel⟩
  · rintro ⟨n, hn, hhalt⟩
    refine ⟨n + 1, ?_⟩
    rw [execute_isSome_iff, loop_succ_end, hn]
    exact (loopBody_terminate_iff hn).mpr hhalt

/-- Witness of C15: on the program of `main.cpp` and the machine built at
address 0 the iteration sets the flag, the instruction at 0 being the halt. -/
theorem terminate_only_by_halt_witness :
    (loopBody example_halt (new 0)).terminate = true :=
  (terminate_only_by_halt example_halt (new 0) rfl).1.mpr
    ⟨{ opcode := VMOpCode.Interrupt, d := 0, x := 0, y := 0, v := 0 }, rfl, rfl, rfl⟩

/-- C16 (program counter past the end). For every program and every running
state whose program counter is past the end, one loop iteration yields the
same state with the program counter replaced by 2, the numeric code of
`SegmentationFault`. When the program has at most two instructions, every
later state is that state (program counter 2, flag clear) and `execute` does
not return within any number of iterations; when it has at least three, the
next iteration runs the instruction at index 2. -/
theorem pc_past_end_redirected (instructions : List VMInstruction) (context : VMContext)
    (hrun : context.terminate = false)
    (hpc : instructions.length ≤ context.regs.pc) :
    loopBody instructions context = { context with regs := { context.regs with pc := 2 } }
    ∧ (instructions.length ≤ 2 →
        (∀ n, loop instructions (n + 1) context
            = { context with regs := { context.regs with pc := 2 } }
          ∧ (loop instructions (n + 1) context).regs.pc = 2
          ∧ (loop instructions (n + 1) context).terminate = false)
        ∧ ∀ fuel, execute instructions fuel context = none)
    ∧ (3 ≤ instructions.length →
        ∃ instruction, instructions[2]? = some instruction
          ∧ loopBody instructions (loopBody instructions context)
              = dispatch { context with regs := { context.regs with pc := 2 } }
                  instruction) := by
  have hbody := loopBody_past_end hpc
  refine ⟨hbody, ?_, ?_⟩
  · intro hlen
    have hfix : loopBody instructions
        { context with regs := { context.regs with pc := 2 } }
        = { context with regs := { context.regs with pc := 2 } } :=
      loopBody_past_end hlen
    have hloop : ∀ n, loop instructions (n + 1) context
        = { context with regs := { context.regs with pc := 2 } } := by
      intro n
      rw [loop_succ_running instructions n hrun, hbody, loop_fixed hfix n]
    refine ⟨fun n => ⟨hloop n, ?_, ?_⟩, ?_⟩
    · rw [hloop n]
    · rw [hloop n]; exact hrun
    · intro fuel
      cases fuel with
      | zero => exact execute_zero_running hrun
      | succ k =>
        rw [execute_eq_loop, hloop k]
        show (if context.terminate = true then _ else none) = none
        rw [hrun]
        rfl
  · intro hlen
    have hlt : 2 < instructions.length := hlen
    refine ⟨instructions[2], List.getElem?_eq_getElem hlt, ?_⟩
    rw [hbody]
    exact loopBody_fetch (List.getElem?_eq_getElem hlt)

/-- Witness of C16: the empty program on the machine built at address 0. -/
theorem pc_past_end_redirected_witness :
    (loopBody [] (new 0)).regs.pc = 2
    ∧ (loop [] 5 (new 0)).regs.pc = 2
    ∧ execute [] 5 (new 0) = none :=
  have h := pc_past_end_redirected [] (new 0) rfl (Nat.le_refl _)
  ⟨congrArg (fun c => c.regs.pc) h.1, ((h.2.1 (by decide)).1 4).2.1,
    (h.2.1 (by decide)).2 5⟩

/-- C17 (the opcode value without an enumerator). For every program and every
running state whose current instruction has opcode value 8, one loop
iteration returns the state unchanged (program counter not advanced, flag not
set), every later state is the same state, and `execute` does not return
within any number of iterations. -/
theorem undefined_opcode_stalls (instructions : List VMInstruction) (context : VMContext)
    (instruction : VMInstruction)
    (hrun : context.terminate = false)
    (hfetch : instructions[context.regs.pc]? = some instruction)
    (hop : instruction.opcode = 8) :
    context.regs.pc < instructions.length
    ∧ loopBody instructions context = context
    ∧ (∀ n, loop instructions n context = context)
    ∧ ∀ fuel, execute instructions fuel context = none := by
  have hfix : loopBody instructions context = context := by
    rw [loopBody_fetch hfetch, dispatch_undefined hop]
  exact ⟨fetch_lt hfetch, hfix, loop_fixed hfix, execute_fixed hrun hfix⟩

/-- Witness of C17: an instruction word with opcode 8 at index 0 on the machine
built at address 0. -/
theorem undefined_opcode_stalls_witness :
    loopBody [{ opcode := 8, d := 1, x := 2, y := 3, v := 4 }] (new 0) = new 0
    ∧ execute [{ opcode := 8, d := 1, x := 2, y := 3, v := 4 }] 100 (new 0) = none :=
  have h := undefined_opcode_stalls [{ opcode := 8, d := 1, x := 2, y := 3, v := 4 }]
    (new 0) { opcode := 8, d := 1, x := 2, y := 3, v := 4 } rfl rfl rfl
  ⟨h.2.1, h.2.2.2 100⟩

/-- C18 (frame of a step). For every program, every instruction word and every
state, the handler of the instruction and one loop iteration change at most
the program counter and the termination flag: registers 0 to 14, the sixteen
vector-table entries and every byte of the memory segment are the same before
and after. Hence after any number of loop iterations from the freshly
constructed machine registers 0 to 14 hold their construction values and the
vector table and the memory are all zero. -/
theorem step_frame (stack_ptr : Nat) (instructions : List VMInstruction)
    (context : VMContext) (instruction : VMInstruction) :
    ((∀ i, i ≠ VMRegIdx.PC →
        (dispatch context instruction).regs.arr i = context.regs.arr i)
      ∧ (dispatch context instruction).irt = context.irt
      ∧ (dispatch context instruction).stack = context.stack)
    ∧ ((∀ i, i ≠ VMRegIdx.PC →
        (loopBody instructions context).regs.arr i = context.regs.arr i)
      ∧ (∀ k, (loopBody instructions context).irt.routines k = context.irt.routines k)
      ∧ (∀ a, (loopBody instructions context).stack.ptr a = context.stack.ptr a)
      ∧ (loopBody instructions context).irt = context.irt
      ∧ (loopBody instructions context).stack = context.stack)
    ∧ ∀ n,
      (∀ i, i ≠ VMRegIdx.PC →
        (loop instructions n (new stack_ptr)).regs.arr i = (new stack_ptr).regs.arr i)
      ∧ (∀ k, (loop instructions n (new stack_ptr)).irt.routines k = 0)
      ∧ (∀ a, (loop instructions n (new stack_ptr)).stack.ptr a = 0)
      ∧ (loop instructions n (new stack_ptr)).stack.size = 8 * 1024 * 1024 := by
  refine ⟨⟨fun i hi => arr_of_shape (dispatch_shape _ _) i hi,
      (irt_stack_of_shape (dispatch_shape _ _)).1,
      (irt_stack_of_shape (dispatch_shape _ _)).2⟩, ?_, ?_⟩
  · have h := irt_stack_of_shape (loopBody_shape instructions context)
    refine ⟨fun i hi => arr_of_shape (loopBody_shape _ _) i hi, ?_, ?_, h.1, h.2⟩
    · intro k; rw [h.1]
    · intro a; rw [h.2]
  · intro n
    have h := irt_stack_of_shape (loop_shape instructions n (new stack_ptr))
    refine ⟨fun i hi => arr_of_shape (loop_shape _ _ _) i hi, ?_, ?_, ?_⟩
    · intro k; rw [h.1]; rfl
    · intro a; rw [h.2]; rfl
    · rw [h.2]; rfl

/-- C19 (straight-line programs). For every program and every index `k` inside
it (so `k < 2^64`, the length being a `std::size_t`) such that the instruction
at `k` is `interrupt` with `d = 0` and every instruction before `k` has an
opcode other than `Interrupt` and other than the value 8, `execute` on the
freshly constructed machine returns after exactly `k + 1` loop iterations
(`k` iterations do not suffice, `k + 1` or more do), with the program counter
equal to `k`, the termination flag set and every register other than the
program counter at its construction value. -/
theorem straight_line_halts (instructions : List VMInstruction) (k stack_ptr : Nat)
    (halt : VMInstruction)
    (hk : instructions[k]? = some halt)
    (hop : halt.opcode = VMOpCode.Interrupt) (hd : halt.d = 0)
    (hpre : ∀ i instruction, i < k → instructions[i]? = some instruction →
      instruction.opcode ≠ VMOpCode.Interrupt ∧ instruction.opcode ≠ 8)
    (hk64 : k < 2 ^ 64) :
    execute instructions k (new stack_ptr) = none
    ∧ (∀ m, execute instructions (k + 1 + m) (new stack_ptr)
        = some { new stack_ptr with
                 regs := { (new stack_ptr).regs with pc := k }, terminate := true })
    ∧ ∀ fuel final, execute instructions fuel (new stack_ptr) = some final →
        k + 1 ≤ fuel ∧ final.regs.pc = k ∧ final.terminate = true
        ∧ ∀ i, i ≠ VMRegIdx.PC → final.regs.arr i = (new stack_ptr).regs.arr i := by
  have hlen : k < instructions.length := by
    by_contra hge
    rw [List.getElem?_eq_none (Nat.le_of_not_lt hge)] at hk
    cases hk
  have hline := loop_straight_line instructions k stack_ptr hlen hk64 hpre
  have hloopk := hline k (Nat.le_refl k)
  have hlast : loop instructions (k + 1) (new stack_ptr)
      = { new stack_ptr with
          regs := { (new stack_ptr).regs with pc := k }, terminate := true } := by
    rw [loop_succ_end, hloopk]
    have hfetch : instructions[({ new stack_ptr with
        regs := { (new stack_ptr).regs with pc := k } } : VMContext).regs.pc]?
        = some halt := hk
    rw [loopBody_fetch hfetch, dispatch_interrupt hop]
    unfold ins_interrupt
    rw [if_pos hd]
    rfl
  have hnone : ∀ j, j ≤ k → execute instructions j (new stack_ptr) = none := by
    intro j hj
    rw [execute_eq_loop, hline j hj]
    rfl
  have hsome : ∀ m, execute instructions (k + 1 + m) (new stack_ptr)
      = some { new stack_ptr with
               regs := { (new stack_ptr).regs with pc := k }, terminate := true } := by
    intro m
    rw [execute_eq_loop, loop_add_of_terminated instructions (k + 1) (by rw [hlast]) m,
      hlast]
    rfl
  refine ⟨hnone k (Nat.le_refl k), hsome, ?_⟩
  intro fuel final hfinal
  by_cases hfuel : fuel ≤ k
  · rw [hnone fuel hfuel] at hfinal
    cases hfinal
  · have hge : k + 1 ≤ fuel := Nat.lt_of_not_le hfuel
    obtain ⟨m, rfl⟩ := Nat.exists_eq_add_of_le hge
    rw [hsome m] at hfinal
    cases hfinal
    exact ⟨hge, rfl, rfl, fun i hi => arr_set_pc _ _ i hi⟩

/-- Witness of C19: `add`, `extended`, then the halt at index 2, on the machine
built at address 0: three loop iterations, final program counter 2. -/
theorem straight_line_halts_witness :
    execute
      [{ opcode := VMOpCode.Add, d := 1, x := 2, y := 3, v := 0 },
       { opcode := VMOpCode.Extended, d := 0, x := 0, y := 0, v := 0 },
       { opcode := VMOpCode.Interrupt, d := 0, x := 0, y := 0, v := 0 }] 2 (new 0) = none
    ∧ execute
      [{ opcode := VMOpCode.Add, d := 1, x := 2, y := 3, v := 0 },
       { opcode := VMOpCode.Extended, d := 0, x := 0, y := 0, v := 0 },
       { opcode := VMOpCode.Interrupt, d := 0, x := 0, y := 0, v := 0 }] (2 + 1 + 0) (new 0)
      = some { new 0 with regs := { (new 0).regs with pc := 2 }, terminate := true } :=
  have h := straight_line_halts
    [{ opcode := VMOpCode.Add, d := 1, x := 2, y := 3, v := 0 },
     { opcode := VMOpCode.Extended, d := 0, x := 0, y := 0, v := 0 },
     { opcode := VMOpCode.Interrupt, d := 0, x := 0, y := 0, v := 0 }] 2 0
    { opcode := VMOpCode.Interrupt, d := 0, x := 0, y := 0, v := 0 } rfl rfl rfl
    (by
      intro i instruction hi hfetch
      match i, hi with
      | 0, _ => cases hfetch; exact ⟨by decide, by decide⟩
      | 1, _ => cases hfetch; exact ⟨by decide, by decide⟩)
    (by decide)
  ⟨h.1, h.2.1 0⟩

/-- C20 (a non-halt interrupt restarts the program). After any number of loop
iterations of any program from the freshly constructed machine every
vector-table entry is 0, so in such a state, when it is running, an
`interrupt` with `d` in 1..15 sets the program counter to 0. Consequently, for
every program whose instruction 0 is `interrupt` with `d` not 0, every state
reached from the freshly constructed machine is that machine itself (program
counter 0, flag clear) and `execute` does not return within any number of
iterations. -/
theorem nonhalt_interrupt_restarts (stack_ptr : Nat) (instructions : List VMInstruction)
    (first : VMInstruction)
    (hfirst : instructions[0]? = some first)
    (hop : first.opcode = VMOpCode.Interrupt) (hd : first.d ≠ 0) :
    (∀ n, loop instructions n (new stack_ptr) = new stack_ptr
        ∧ (loop instructions n (new stack_ptr)).regs.pc = 0
        ∧ (loop instructions n (new stack_ptr)).terminate = false)
    ∧ (∀ fuel, execute instructions fuel (new stack_ptr) = none)
    ∧ (∀ (program : List VMInstruction) (n : Nat) (k : Fin 16),
        (loop program n (new stack_ptr)).irt.routines k = 0)
    ∧ ∀ (program : List VMInstruction) (n : Nat) (instruction : VMInstruction),
        (loop program n (new stack_ptr)).terminate = false →
        program[(loop program n (new stack_ptr)).regs.pc]? = some instruction →
        instruction.opcode = VMOpCode.Interrupt → instruction.d ≠ 0 →
        (loopBody program (loop program n (new stack_ptr))).regs.pc = 0
        ∧ (loopBody program (loop program n (new stack_ptr))).terminate = false := by
  have hirt : ∀ (program : List VMInstruction) (n : Nat),
      (loop program n (new stack_ptr)).irt = (new stack_ptr).irt :=
    fun program n => (irt_stack_of_shape (loop_shape program n (new stack_ptr))).1
  have hfix : loopBody instructions (new stack_ptr) = new stack_ptr := by
    have hfetch : instructions[(new stack_ptr).regs.pc]? = some first := hfirst
    rw [loopBody_fetch hfetch, dispatch_interrupt hop]
    unfold ins_interrupt
    rw [if_neg hd]
    rfl
  refine ⟨?_, execute_fixed rfl hfix, ?_, ?_⟩
  · intro n
    have hn := loop_fixed hfix n
    exact ⟨hn, by rw [hn]; rfl, by rw [hn]; rfl⟩
  · intro program n k
    rw [hirt program n]
    rfl
  · intro program n instruction hrun hfetch hop2 hd2
    rw [loopBody_fetch hfetch, dispatch_interrupt hop2]
    unfold ins_interrupt
    rw [if_neg hd2]
    refine ⟨?_, hrun⟩
    show (loop program n (new stack_ptr)).irt.routines instruction.d = 0
    rw [hirt program n]
    rfl

/-- Witness of C20: the program `interrupt d=5` on the machine built at
address 0 is back at the initial state after every number of iterations. -/
theorem nonhalt_interrupt_restarts_witness :
    loop [{ opcode := VMOpCode.Interrupt, d := 5, x := 0, y := 0, v := 0 }] 7 (new 0) = new 0
    ∧ execute [{ opcode := VMOpCode.Interrupt, d := 5, x := 0, y := 0, v := 0 }] 7 (new 0)
      = none :=
  have h := nonhalt_interrupt_restarts 0
    [{ opcode := VMOpCode.Interrupt, d := 5, x := 0, y := 0, v := 0 }]
    { opcode := VMOpCode.Interrupt, d := 5, x := 0, y := 0, v := 0 } rfl rfl (by decide)
  ⟨(h.1 7).1, h.2.1 7⟩

end VMEngine

end mini
